import Mathlib

/-!
Shallow embedding of `src/lazy.cc`: a single-assignment future type
(`Lazy<T>` with states `LAZY_NOT_READY`, `LAZY_READY`, `LAZY_FAIL`),
its callback machinery (boost::signals2 signals, whose invocation fires
the snapshot of slots taken at emission start, in connection order, and
does not fire slots connected during the emission), the `Wait` AND-join
barrier, and the ucontext-based cooperative coroutine used by
`__do_async_wait` / `START_COROUTINE_AND_RUN_ONCE`.

Cells are identified by indices into `World.cells`; callbacks are a
small syntactic type interpreted by a fueled, mutually recursive
interpreter, so that re-entrant emission (a callback resolving another
cell, which fires further callbacks) is total.  Observable behaviour is
accumulated in `World.log`.
-/

/-- The three states of `Lazy<T>::State`. -/
inductive LState where
  | notReady
  | ready
  | failed
deriving DecidableEq

/-- Observable events recorded by logging callbacks and jobs. -/
inductive Ev where
  | readyEv (tag : Nat) (v : Int)
  | failEv (tag : Nat)
  | jobEv (tag : Nat)
deriving DecidableEq

/-- Ready-callbacks (`boost::function<void(T)>` closures occurring in the
program, plus pure logging callbacks used to observe invocation order):
`record tag` logs `(tag, value)`; `recordThenRegister` logs and then calls
`on_ready` on a cell with a fresh logging callback (used to observe the
snapshot firing rule); `plusStep1`/`plusStep2` are
`Lazy::Impl::operator_plus_step1/2` bound to a result cell;
`waitOneReady` is `Wait::one_ready` bound to a barrier; `resume` is
`__async_continue`. -/
inductive Cb where
  | record (tag : Nat)
  | recordThenRegister (tag : Nat) (cell : Nat) (tag2 : Nat)
  | plusStep1 (r : Nat) (b : Nat)
  | plusStep2 (r : Nat)
  | waitOneReady (bar : Nat)
  | resume
deriving DecidableEq

/-- Fail-callbacks: the program only ever needs observers. -/
inductive FailCb where
  | frecord (tag : Nat)
deriving DecidableEq

/-- Jobs queued on a `Wait` barrier: observers logging `jobEv tag`. -/
inductive Job where
  | jrecord (tag : Nat)
deriving DecidableEq

/-- `Lazy<T>::Impl`: state, value (`T = int`), and the two signals'
slot lists in connection order. -/
structure Impl where
  state : LState
  value : Int
  readyCbs : List Cb
  failCbs : List FailCb
deriving DecidableEq

/-- `Wait`: `counter_` and `jobs_`. -/
structure Barrier where
  counter : Int
  jobs : List Job
deriving DecidableEq

/-- Program counter of the embedded coroutine
`x = __async_wait(a); y = __async_wait(b); result = x + y`. -/
inductive CoroPC where
  | notStarted
  | awaitingA
  | awaitingB
  | done
deriving DecidableEq

/-- Coroutine context: which cells it awaits, its saved local `x`,
its final `result`, and the `coroutine_finished` flag. -/
structure CoroSt where
  pc : CoroPC
  aId : Nat
  bId : Nat
  x : Int
  result : Int
  finished : Bool
deriving DecidableEq

/-- Global state: all cells, all barriers, the coroutine, and the
observable event log. -/
structure World where
  cells : List Impl
  barriers : List Barrier
  coro : CoroSt
  log : List Ev
deriving DecidableEq

/-- A freshly constructed `Impl()`: `LAZY_NOT_READY`, `value_ = T()`. -/
def dfltImpl : Impl := ⟨.notReady, 0, [], []⟩

/-- A freshly constructed `Wait()`: `counter_ = 0`, no jobs. -/
def dfltBarrier : Barrier := ⟨0, []⟩

def getCell (w : World) (i : Nat) : Impl := w.cells.getD i dfltImpl

def getBarrier (w : World) (i : Nat) : Barrier := w.barriers.getD i dfltBarrier

def updCell (w : World) (i : Nat) (f : Impl → Impl) : World :=
  { w with cells := w.cells.set i (f (getCell w i)) }

def updBarrier (w : World) (i : Nat) (f : Barrier → Barrier) : World :=
  { w with barriers := w.barriers.set i (f (getBarrier w i)) }

def addLog (w : World) (e : Ev) : World := { w with log := w.log ++ [e] }

/-- `Lazy<T>::get`: `assert(state_ == LAZY_READY); return value_;`.
The assertion failure is modelled as `none`. -/
def Lazy.get (w : World) (i : Nat) : Option Int :=
  if (getCell w i).state = .ready then some (getCell w i).value else none

/-- Pending interpreter activity: one constructor per callback
invocation, slot-list firing, emission, registration, barrier step, job
run, and coroutine handoff of the program. -/
inductive Act where
  | inv (cb : Cb) (v : Int)
  | fire (cbs : List Cb) (v : Int)
  | emitR (i : Nat)
  | onR (i : Nat) (cb : Cb)
  | invF (fc : FailCb)
  | fireF (fcs : List FailCb)
  | emitF (i : Nat)
  | onF (i : Nat) (fc : FailCb)
  | job (j : Job)
  | jobList (js : List Job)
  | oneReady (bar : Nat)
  | coro
deriving DecidableEq

/-- The fueled interpreter.  Each case embeds one function of the
source, recursing only with strictly smaller fuel so that re-entrant
emission (a callback resolving another cell, which fires further
callbacks) is total and computable.

* `inv cb v`: one slot call with argument `v`.  `record` only logs;
  `recordThenRegister` logs and then calls `on_ready` on a cell;
  `plusStep1` is `Lazy::Impl::operator_plus_step1`
  (`value_ = a; b.on_ready(operator_plus_step2)`); `plusStep2` is
  `operator_plus_step2` (`value_ += b; emit_ready();`); `waitOneReady`
  is `Wait::one_ready`; `resume` is `__async_continue`.
* `fire cbs v`: fire a snapshot of a signal's slot list in connection
  order (boost::signals2 invocation; slots connected during the
  invocation are not part of the snapshot).
* `emitR i`: `Lazy::Impl::emit_ready` — `state_ = LAZY_READY;
  ready_callbacks_(value_);`, with no assertion guarding the state.
* `onR i cb`: `Lazy::Impl::on_ready` — `ready_callbacks_.connect(cb);
  if (state_ == LAZY_READY) cb(value_);`: the callback is always
  appended, and additionally invoked at once when already ready.
* `emitF i`: `Lazy::Impl::emit_fail` — sets `LAZY_FAIL` and fires
  `fail_callbacks_()`, again without any assertion.  (As written the
  member assigns through `p_impl_`, a member of the enclosing `Lazy`,
  a slip that would not compile if the member were instantiated; the
  evident intent `state_ = LAZY_FAIL;` is embedded.)
* `onF i fc`: `Lazy::Impl::on_fail`, symmetric to `onR`.
* `job`/`jobList`: run one queued job / all queued jobs in queue order
  (the `BOOST_FOREACH` in `Wait::one_ready`).
* `oneReady bar`: `Wait::one_ready` — `--counter_;
  if (counter_ == 0)` run all queued jobs.
* `coro`: the embedded coroutine body
  `x = __async_wait(a); y = __async_wait(b); result = x + y`, resumed
  at its saved program counter: each `__async_wait` registers `resume`
  via `on_ready` and suspends (`__do_async_wait`); on resumption it
  returns `var.get()`; at the end `result` is computed and
  `finished` set.  Resuming a finished routine is a contract
  violation (`none`). -/
def step : Nat → Act → World → Option World
  | 0, _, _ => none
  | n+1, act, w =>
    match act with
    | .inv cb v =>
      match cb with
      | .record tag => some (addLog w (.readyEv tag v))
      | .recordThenRegister tag j tag2 =>
          step n (.onR j (.record tag2)) (addLog w (.readyEv tag v))
      | .plusStep1 r b =>
          step n (.onR b (.plusStep2 r)) (updCell w r (fun c => { c with value := v }))
      | .plusStep2 r =>
          step n (.emitR r) (updCell w r (fun c => { c with value := c.value + v }))
      | .waitOneReady bar => step n (.oneReady bar) w
      | .resume => step n .coro w
    | .fire cbs v =>
      match cbs with
      | [] => some w
      | cb :: rest => (step n (.inv cb v) w).bind (step n (.fire rest v))
    | .emitR i =>
      let w1 := updCell w i (fun c => { c with state := .ready })
      step n (.fire (getCell w1 i).readyCbs (getCell w1 i).value) w1
    | .onR i cb =>
      let w1 := updCell w i (fun c => { c with readyCbs := c.readyCbs ++ [cb] })
      if (getCell w1 i).state = .ready then step n (.inv cb (getCell w1 i).value) w1
      else some w1
    | .invF fc =>
      match fc with
      | .frecord tag => some (addLog w (.failEv tag))
    | .fireF fcs =>
      match fcs with
      | [] => some w
      | fc :: rest => (step n (.invF fc) w).bind (step n (.fireF rest))
    | .emitF i =>
      let w1 := updCell w i (fun c => { c with state := .failed })
      step n (.fireF (getCell w1 i).failCbs) w1
    | .onF i fc =>
      let w1 := updCell w i (fun c => { c with failCbs := c.failCbs ++ [fc] })
      if (getCell w1 i).state = .failed then step n (.invF fc) w1
      else some w1
    | .job j =>
      match j with
      | .jrecord tag => some (addLog w (.jobEv tag))
    | .jobList js =>
      match js with
      | [] => some w
      | j :: rest => (step n (.job j) w).bind (step n (.jobList rest))
    | .oneReady bar =>
      let w1 := updBarrier w bar (fun b => { b with counter := b.counter - 1 })
      if (getBarrier w1 bar).counter = 0 then step n (.jobList (getBarrier w1 bar).jobs) w1
      else some w1
    | .coro =>
      match w.coro.pc with
      | .notStarted =>
          step n (.onR w.coro.aId .resume)
            { w with coro := { w.coro with pc := .awaitingA } }
      | .awaitingA =>
          match Lazy.get w w.coro.aId with
          | none => none
          | some xv =>
              step n (.onR w.coro.bId .resume)
                { w with coro := { w.coro with x := xv, pc := .awaitingB } }
      | .awaitingB =>
          match Lazy.get w w.coro.bId with
          | none => none
          | some yv =>
              some { w with coro :=
                { w.coro with result := w.coro.x + yv, finished := true, pc := .done } }
      | .done => none

/-- `Lazy<T>::Impl::emit_ready` (see `step`). -/
def emit_ready (n i : Nat) (w : World) : Option World := step n (.emitR i) w

/-- `Lazy<T>::Impl::on_ready` (see `step`). -/
def on_ready (n i : Nat) (cb : Cb) (w : World) : Option World := step n (.onR i cb) w

/-- `Lazy<T>::Impl::emit_fail` (see `step`). -/
def emit_fail (n i : Nat) (w : World) : Option World := step n (.emitF i) w

/-- `Lazy<T>::Impl::on_fail` (see `step`). -/
def on_fail (n i : Nat) (fc : FailCb) (w : World) : Option World := step n (.onF i fc) w

/-- `Wait::one_ready` (see `step`). -/
def one_ready (n bar : Nat) (w : World) : Option World := step n (.oneReady bar) w

/-- The coroutine body under the cooperative scheduler (see `step`). -/
def runCoro (n : Nat) (w : World) : Option World := step n .coro w

/-- Run one queued job (see `step`). -/
def runJob (n : Nat) (j : Job) (w : World) : Option World := step n (.job j) w

/-- Top-level operations performed by the driver side of the program,
one per public entry point of `Lazy<T>` and `Wait` plus the scheduler
start. -/
inductive Op where
  | assign (i : Nat) (v : Int)
  | emitReady (i : Nat)
  | emitFail (i : Nat)
  | onReady (i : Nat) (cb : Cb)
  | onFail (i : Nat) (fc : FailCb)
  | plus (a : Nat) (b : Nat)
  | watch (bar : Nat) (i : Nat)
  | run (bar : Nat) (j : Job)
  | startCoro
deriving DecidableEq

/-- One driver-side step.  `assign` is `Lazy<T>::operator=(const T&)`:
`assert(state_ == LAZY_NOT_READY)` (modelled as `none` on violation),
store the value, `emit_ready()`.  `plus` is `Lazy<T>::operator+`:
construct a fresh pending result cell and connect
`operator_plus_step1(result, b)` on `a` via `on_ready`.  `watch` is
`Wait::operator()`: `++counter_`, then connect `one_ready` on the cell.
`run` is `Wait::run`: push the job, and run just that job at once when
`counter_ == 0`.  `startCoro` is the first handoff of
`START_COROUTINE_AND_RUN_ONCE`. -/
def runOp (n : Nat) : Op → World → Option World
  | .assign i v, w =>
      if (getCell w i).state = .notReady then
        emit_ready n i (updCell w i (fun c => { c with value := v }))
      else none
  | .emitReady i, w => emit_ready n i w
  | .emitFail i, w => emit_fail n i w
  | .onReady i cb, w => on_ready n i cb w
  | .onFail i fc, w => on_fail n i fc w
  | .plus a b, w =>
      on_ready n a (.plusStep1 w.cells.length b)
        { w with cells := w.cells ++ [dfltImpl] }
  | .watch bar i, w =>
      on_ready n i (.waitOneReady bar)
        (updBarrier w bar (fun b => { b with counter := b.counter + 1 }))
  | .run bar j, w =>
      let w1 := updBarrier w bar (fun b => { b with jobs := b.jobs ++ [j] })
      if (getBarrier w1 bar).counter = 0 then runJob n j w1 else some w1
  | .startCoro, w => runCoro n w

/-- Run a sequence of driver-side operations, each with fuel `n`. -/
def runOps (n : Nat) : List Op → World → Option World
  | [], w => some w
  | op :: rest, w => (runOp n op w).bind (runOps n rest)

/-- Coroutine context awaiting cells `0` and `1`, not yet started. -/
def coro0 : CoroSt := ⟨.notStarted, 0, 1, 0, 0, false⟩

/-! ### Basic facts about the state containers -/

lemma getCell_updCell (w : World) (i : Nat) (f : Impl → Impl) (j : Nat) :
    getCell (updCell w i f) j
      = if i = j ∧ i < w.cells.length then f (getCell w i) else getCell w j := by
  simp only [getCell, updCell, List.getD_eq_getElem?_getD, List.getElem?_set]
  by_cases h1 : i = j
  · subst h1
    by_cases h2 : i < w.cells.length
    · simp [h2]
    · simp [h2, List.getElem?_eq_none (Nat.le_of_not_lt h2)]
  · simp [h1]

lemma getBarrier_updBarrier (w : World) (i : Nat) (f : Barrier → Barrier) (j : Nat) :
    getBarrier (updBarrier w i f) j
      = if i = j ∧ i < w.barriers.length then f (getBarrier w i) else getBarrier w j := by
  simp only [getBarrier, updBarrier, List.getD_eq_getElem?_getD, List.getElem?_set]
  by_cases h1 : i = j
  · subst h1
    by_cases h2 : i < w.barriers.length
    · simp [h2]
    · simp [h2, List.getElem?_eq_none (Nat.le_of_not_lt h2)]
  · simp [h1]

/-! ### A cell's state never returns to `Pending`

`StatePres w w'` says that any cell that is `notReady` after a
transition from `w` to `w'` was already `notReady` in `w` —
equivalently, a terminal cell stays terminal. -/

def StatePres (w w' : World) : Prop :=
  ∀ i, (getCell w' i).state = .notReady → (getCell w i).state = .notReady

lemma statePres_refl (w : World) : StatePres w w := fun _ h => h

lemma statePres_trans {w w1 w2 : World} (h1 : StatePres w w1) (h2 : StatePres w1 w2) :
    StatePres w w2 := fun i h => h1 i (h2 i h)

lemma statePres_cellsEq {w w' : World} (h : w'.cells = w.cells) : StatePres w w' := by
  intro i hi
  simp only [getCell] at hi ⊢
  rw [h] at hi
  exact hi

lemma statePres_updCell (w : World) (i : Nat) (f : Impl → Impl)
    (hf : ∀ c, (f c).state = c.state ∨ (f c).state ≠ .notReady) :
    StatePres w (updCell w i f) := by
  intro j hj
  rw [getCell_updCell] at hj
  split at hj
  · rename_i hc
    obtain ⟨hij, -⟩ := hc
    subst hij
    rcases hf (getCell w i) with h | h
    · rw [h] at hj; exact hj
    · exact absurd hj h
  · exact hj

lemma statePres_addLog (w : World) (e : Ev) : StatePres w (addLog w e) :=
  statePres_cellsEq rfl

lemma statePres_updBarrier (w : World) (i : Nat) (f : Barrier → Barrier) :
    StatePres w (updBarrier w i f) :=
  statePres_cellsEq rfl

/-- No interpreter activity ever moves a cell back to `notReady`. -/
lemma step_statePres : ∀ (n : Nat) (a : Act) (w w' : World),
    step n a w = some w' → StatePres w w' := by
  intro n
  induction n with
  | zero => intro a w w' h; simp [step] at h
  | succ n ih =>
    intro a w w' h
    cases a with
    | inv cb v =>
      cases cb with
      | record tag =>
          simp only [step, Option.some.injEq] at h
          exact h ▸ statePres_addLog w _
      | recordThenRegister tag j tag2 =>
          simp only [step] at h
          exact statePres_trans (statePres_addLog w _) (ih _ _ _ h)
      | plusStep1 r b =>
          simp only [step] at h
          exact statePres_trans
            (statePres_updCell w r (fun c => { c with value := v })
              (fun c => Or.inl rfl)) (ih _ _ _ h)
      | plusStep2 r =>
          simp only [step] at h
          exact statePres_trans
            (statePres_updCell w r (fun c => { c with value := c.value + v })
              (fun c => Or.inl rfl)) (ih _ _ _ h)
      | waitOneReady bar =>
          simp only [step] at h
          exact ih _ _ _ h
      | resume =>
          simp only [step] at h
          exact ih _ _ _ h
    | fire cbs v =>
      cases cbs with
      | nil =>
          simp only [step, Option.some.injEq] at h
          exact h ▸ statePres_refl w
      | cons cb rest =>
          simp only [step] at h
          cases h1 : step n (.inv cb v) w with
          | none => rw [h1] at h; simp at h
          | some w1 =>
              rw [h1] at h
              simp only [Option.some_bind] at h
              exact statePres_trans (ih _ _ _ h1) (ih _ _ _ h)
    | emitR i =>
        simp only [step] at h
        exact statePres_trans
          (statePres_updCell w i (fun c => { c with state := .ready })
            (fun c => Or.inr (by simp))) (ih _ _ _ h)
    | onR i cb =>
        simp only [step] at h
        split at h
        · exact statePres_trans
            (statePres_updCell w i (fun c => { c with readyCbs := c.readyCbs ++ [cb] })
              (fun c => Or.inl rfl)) (ih _ _ _ h)
        · simp only [Option.some.injEq] at h
          exact h ▸ statePres_updCell w i
            (fun c => { c with readyCbs := c.readyCbs ++ [cb] }) (fun c => Or.inl rfl)
    | invF fc =>
        cases fc with
        | frecord tag =>
            simp only [step, Option.some.injEq] at h
            exact h ▸ statePres_addLog w _
    | fireF fcs =>
      cases fcs with
      | nil =>
          simp only [step, Option.some.injEq] at h
          exact h ▸ statePres_refl w
      | cons fc rest =>
          simp only [step] at h
          cases h1 : step n (.invF fc) w with
          | none => rw [h1] at h; simp at h
          | some w1 =>
              rw [h1] at h
              simp only [Option.some_bind] at h
              exact statePres_trans (ih _ _ _ h1) (ih _ _ _ h)
    | emitF i =>
        simp only [step] at h
        exact statePres_trans
          (statePres_updCell w i (fun c => { c with state := .failed })
            (fun c => Or.inr (by simp))) (ih _ _ _ h)
    | onF i fc =>
        simp only [step] at h
        split at h
        · exact statePres_trans
            (statePres_updCell w i (fun c => { c with failCbs := c.failCbs ++ [fc] })
              (fun c => Or.inl rfl)) (ih _ _ _ h)
        · simp only [Option.some.injEq] at h
          exact h ▸ statePres_updCell w i
            (fun c => { c with failCbs := c.failCbs ++ [fc] }) (fun c => Or.inl rfl)
    | job j =>
        cases j with
        | jrecord tag =>
            simp only [step, Option.some.injEq] at h
            exact h ▸ statePres_addLog w _
    | jobList js =>
      cases js with
      | nil =>
          simp only [step, Option.some.injEq] at h
          exact h ▸ statePres_refl w
      | cons j rest =>
          simp only [step] at h
          cases h1 : step n (.job j) w with
          | none => rw [h1] at h; simp at h
          | some w1 =>
              rw [h1] at h
              simp only [Option.some_bind] at h
              exact statePres_trans (ih _ _ _ h1) (ih _ _ _ h)
    | oneReady bar =>
        simp only [step] at h
        split at h
        · exact statePres_trans (statePres_updBarrier w bar _) (ih _ _ _ h)
        · simp only [Option.some.injEq] at h
          exact h ▸ statePres_updBarrier w bar _
    | coro =>
        simp only [step] at h
        cases hpc : w.coro.pc with
        | notStarted =>
            rw [hpc] at h
            simp only [] at h
            refine statePres_trans ?_ (ih _ _ _ h)
            exact statePres_cellsEq rfl
        | awaitingA =>
            rw [hpc] at h
            cases hg : Lazy.get w w.coro.aId with
            | none => rw [hg] at h; simp at h
            | some xv =>
                rw [hg] at h
                simp only [] at h
                refine statePres_trans ?_ (ih _ _ _ h)
                exact statePres_cellsEq rfl
        | awaitingB =>
            rw [hpc] at h
            cases hg : Lazy.get w w.coro.bId with
            | none => rw [hg] at h; simp at h
            | some yv =>
                rw [hg] at h
                simp only [Option.some.injEq] at h
                exact h ▸ statePres_cellsEq rfl
        | done =>
            rw [hpc] at h
            simp at h

lemma statePres_appendCell (w : World) :
    StatePres w { w with cells := w.cells ++ [dfltImpl] } := by
  intro j hj
  by_cases hlt : j < w.cells.length
  · simp only [getCell] at hj ⊢
    rwa [List.getD_append _ _ _ _ hlt] at hj
  · have : getCell w j = dfltImpl := by
      simp only [getCell]
      exact List.getD_eq_default _ _ (Nat.le_of_not_lt hlt)
    rw [this]
    rfl

/-- No public entry point of the program ever moves a cell back to
`notReady`. -/
lemma runOp_statePres (n : Nat) (op : Op) (w w' : World) :
    runOp n op w = some w' → StatePres w w' := by
  intro h
  cases op with
  | assign i v =>
      simp only [runOp] at h
      split at h
      · refine statePres_trans ?_ (step_statePres _ _ _ _ h)
        exact statePres_updCell w i (fun c => { c with value := v }) (fun c => Or.inl rfl)
      · simp at h
  | emitReady i => exact step_statePres _ _ _ _ h
  | emitFail i => exact step_statePres _ _ _ _ h
  | onReady i cb => exact step_statePres _ _ _ _ h
  | onFail i fc => exact step_statePres _ _ _ _ h
  | plus a b =>
      simp only [runOp] at h
      exact statePres_trans (statePres_appendCell w) (step_statePres _ _ _ _ h)
  | watch bar i =>
      simp only [runOp] at h
      refine statePres_trans ?_ (step_statePres _ _ _ _ h)
      exact statePres_updBarrier w bar _
  | run bar j =>
      simp only [runOp] at h
      split at h
      · refine statePres_trans ?_ (step_statePres _ _ _ _ h)
        exact statePres_updBarrier w bar _
      · simp only [Option.some.injEq] at h
        exact h ▸ statePres_updBarrier w bar _
  | startCoro => exact step_statePres _ _ _ _ h

/-- Preservation along any driver-side operation sequence. -/
lemma runOps_statePres (n : Nat) (ops : List Op) : ∀ (w w' : World),
    runOps n ops w = some w' → StatePres w w' := by
  induction ops with
  | nil =>
      intro w w' h
      simp only [runOps, Option.some.injEq] at h
      exact h ▸ statePres_refl w
  | cons op rest ih =>
      intro w w' h
      simp only [runOps] at h
      cases h1 : runOp n op w with
      | none => rw [h1] at h; simp at h
      | some w1 =>
          rw [h1] at h
          simp only [Option.some_bind] at h
          exact statePres_trans (runOp_statePres _ _ _ _ h1) (ih _ _ h)

/-! ### Firing lists of observer callbacks -/

/-- Firing a snapshot consisting of logging slots appends one
`readyEv` per slot, in connection order, each carrying the emitted
value. -/
lemma step_fire_map_record (tags : List Nat) (n : Nat) (rest : List Cb) (v : Int)
    (w : World) :
    step (n + tags.length + 1) (.fire (tags.map .record ++ rest) v) w
      = step (n + 1) (.fire rest v)
          { w with log := w.log ++ tags.map (fun t => Ev.readyEv t v) } := by
  induction tags generalizing w with
  | nil => simp
  | cons t ts ih =>
      rw [show n + (t :: ts).length + 1 = ((n + ts.length) + 1) + 1 from by
        simp only [List.length_cons]; omega]
      rw [show step (((n + ts.length) + 1) + 1)
            (.fire ((t :: ts).map .record ++ rest) v) w
          = step ((n + ts.length) + 1) (.fire (ts.map .record ++ rest) v)
              (addLog w (.readyEv t v)) from rfl]
      rw [ih]
      simp [addLog, List.append_assoc]

/-- Firing a snapshot of logging fail-slots appends one `failEv` per
slot, in connection order. -/
lemma step_fireF_map_frecord (tags : List Nat) (n : Nat) (rest : List FailCb)
    (w : World) :
    step (n + tags.length + 1) (.fireF (tags.map .frecord ++ rest)) w
      = step (n + 1) (.fireF rest)
          { w with log := w.log ++ tags.map (fun t => Ev.failEv t) } := by
  induction tags generalizing w with
  | nil => simp
  | cons t ts ih =>
      rw [show n + (t :: ts).length + 1 = ((n + ts.length) + 1) + 1 from by
        simp only [List.length_cons]; omega]
      rw [show step (((n + ts.length) + 1) + 1)
            (.fireF ((t :: ts).map .frecord ++ rest)) w
          = step ((n + ts.length) + 1) (.fireF (ts.map .frecord ++ rest))
              (addLog w (.failEv t)) from rfl]
      rw [ih]
      simp [addLog, List.append_assoc]

/-- Running a queue of logging jobs appends one `jobEv` per job, in
queue order. -/
lemma step_jobList_map_jrecord (tags : List Nat) (n : Nat) (rest : List Job)
    (w : World) :
    step (n + tags.length + 1) (.jobList (tags.map .jrecord ++ rest)) w
      = step (n + 1) (.jobList rest)
          { w with log := w.log ++ tags.map (fun t => Ev.jobEv t) } := by
  induction tags generalizing w with
  | nil => simp
  | cons t ts ih =>
      rw [show n + (t :: ts).length + 1 = ((n + ts.length) + 1) + 1 from by
        simp only [List.length_cons]; omega]
      rw [show step (((n + ts.length) + 1) + 1)
            (.jobList ((t :: ts).map .jrecord ++ rest)) w
          = step ((n + ts.length) + 1) (.jobList (ts.map .jrecord ++ rest))
              (addLog w (.jobEv t)) from rfl]
      rw [ih]
      simp [addLog, List.append_assoc]

/-! ### Scenario worlds -/

/-- Two freshly constructed pending cells (`Lazy<int> a, b`), one
freshly constructed barrier (`Wait`), the coroutine not yet started. -/
def w2 : World := ⟨[dfltImpl, dfltImpl], [dfltBarrier], coro0, []⟩

/-- One pending cell whose ready-slot list holds logging callbacks
`tags` followed by a callback that logs `t1` and then registers a fresh
logging callback `t2` on the same cell, mid-emission. -/
def c1World (tags : List Nat) (t1 t2 : Nat) : World :=
  ⟨[⟨.notReady, 0, tags.map .record ++ [.recordThenRegister t1 0 t2], []⟩], [], coro0, []⟩

/-- One cell already resolved with value `7`, with one registered
ready-callback. -/
def cexW : World := ⟨[⟨.ready, 7, [.record 1], []⟩], [], coro0, []⟩

/-- One cell already resolved with value `v`, with no callbacks. -/
def c3ReadyW (v : Int) : World := ⟨[⟨.ready, v, [], []⟩], [], coro0, []⟩

/-- One cell in state `s` with one ready-callback and fail-slot list
`ftags.map frecord`. -/
def c7World (s : LState) (ftags : List Nat) : World :=
  ⟨[⟨s, 0, [.record 9], ftags.map .frecord⟩], [], coro0, []⟩

/-! ### C1 -/

/-- C1: `resolve(value)` on a pending cell (the `Lazy::operator=` entry
point) sets the state to Ready, stores the value, then synchronously
invokes every ready-callback registered at the start of the emission,
in registration order, passing the value: the log gains
`tags.map (readyEv · v)` in order, then `readyEv t1 v`.  The firing
list is the snapshot taken at invocation start: the callback
`record t2`, registered on the resolving cell by the final snapshot
callback during the emission, is not invoked from the snapshot list —
it is appended to the slot list and delivered exactly once (by
`on_ready`'s immediate-delivery path, the cell being Ready by then), so
`readyEv t2 v` appears exactly once, after all snapshot callbacks. -/
theorem resolve_fires_snapshot_in_order (n : Nat) (tags : List Nat) (t1 t2 : Nat)
    (v : Int) :
    runOp (n + tags.length + 5) (.assign 0 v) (c1World tags t1 t2)
      = some ⟨[⟨.ready, v,
                tags.map .record ++ [.recordThenRegister t1 0 t2, .record t2], []⟩],
              [], coro0,
              tags.map (fun t => Ev.readyEv t v) ++ [.readyEv t1 v, .readyEv t2 v]⟩ := by
  rw [show n + tags.length + 5 = ((n + 3) + tags.length + 1) + 1 from by omega]
  rw [show runOp (((n + 3) + tags.length + 1) + 1) (.assign 0 v) (c1World tags t1 t2)
        = step ((n + 3) + tags.length + 1)
            (.fire (tags.map .record ++ [.recordThenRegister t1 0 t2]) v)
            ⟨[⟨.ready, v, tags.map .record ++ [.recordThenRegister t1 0 t2], []⟩],
             [], coro0, []⟩
      from rfl]
  rw [step_fire_map_record]
  rw [show ∀ L, step ((n + 3) + 1) (.fire [Cb.recordThenRegister t1 0 t2] v)
        ⟨[⟨.ready, v, tags.map .record ++ [.recordThenRegister t1 0 t2], []⟩],
         [], coro0, L⟩
      = some ⟨[⟨.ready, v,
                (tags.map .record ++ [.recordThenRegister t1 0 t2]) ++ [.record t2], []⟩],
              [], coro0, (L ++ [.readyEv t1 v]) ++ [.readyEv t2 v]⟩
      from fun L => rfl]
  simp [List.append_assoc]

/-! ### C2 -/

/-- C2 counterexample: a second resolution through the `emit_ready`
entry point of an already-Ready cell is not rejected — no assertion
fires (the result is `some`, not the contract-violation `none`), and
the already-registered callback is fired a second time.  This refutes
the claim that every resolve entry point, including `emit_ready`,
rejects a second resolution. -/
theorem emit_ready_on_ready_cell_not_rejected :
    runOp 10 (.emitReady 0) cexW
      = some ⟨[⟨.ready, 7, [.record 1], []⟩], [], coro0, [.readyEv 1 7]⟩ := by decide

/-- C2 (amended): resolving through assignment (`Lazy::operator=`,
which carries the `assert(state_ == LAZY_NOT_READY)`) is rejected as a
contract violation whenever the cell is not Pending; and no operation
sequence ever reverts a cell from a terminal state back to Pending.
The `emit_ready` entry point, however, performs no such check. -/
theorem assign_rejected_when_terminal_and_no_revert :
    (∀ (n : Nat) (w : World) (i : Nat) (v : Int),
        (getCell w i).state ≠ .notReady → runOp n (.assign i v) w = none)
  ∧ (∀ (n : Nat) (ops : List Op) (w w' : World) (i : Nat),
        runOps n ops w = some w' →
        (getCell w i).state ≠ .notReady → (getCell w' i).state ≠ .notReady) := by
  constructor
  · intro n w i v h
    simp only [runOp]
    rw [if_neg h]
  · intro n ops w w' i h hterm
    exact fun hnr => hterm (runOps_statePres n ops w w' h i hnr)

/-- The world after firing `emit_ready` a second time on `cexW`. -/
def cexW2 : World := ⟨[⟨.ready, 7, [.record 1], []⟩], [], coro0, [.readyEv 1 7]⟩

/-- Witness for C2's amended theorem at concrete inputs: assignment to
the already-Ready cell of `cexW` is rejected, and the Ready cell of
`cexW` is still terminal after a driver sequence. -/
theorem assign_rejected_when_terminal_and_no_revert_witness :
    runOp 10 (.assign 0 3) cexW = none
  ∧ (getCell cexW2 0).state ≠ LState.notReady :=
  ⟨assign_rejected_when_terminal_and_no_revert.1 10 cexW 0 3 (by decide),
   assign_rejected_when_terminal_and_no_revert.2 10 [.emitReady 0] cexW cexW2 0
     (by decide) (by decide)⟩

/-! ### C3 -/

/-- C3 counterexample: registering a ready-callback on an already-Ready
cell does invoke it immediately, but does not do so *instead of*
appending it: after `on_ready` the cell's slot list contains the
callback (the claim predicts an unchanged, empty list). -/
theorem on_ready_on_ready_cell_appends :
    (runOp 10 (.onReady 0 (.record 3)) (c3ReadyW 7)).map
        (fun w => (getCell w 0).readyCbs) = some [.record 3] := by decide

/-- One freshly constructed pending cell. -/
def c3PendW : World := ⟨[dfltImpl], [], coro0, []⟩

/-- C3 (amended): registering `onReady` on a Ready cell invokes the
callback immediately and synchronously with the stored value, exactly
once — and *also* appends it to the slot list (so a later duplicate
`emit_ready` would deliver it again).  A callback registered before
resolution is appended without firing and then fires exactly once,
after resolution, with the resolved value. -/
theorem on_ready_invokes_once_and_appends (v : Int) (t n : Nat) :
    runOp (n + 2) (.onReady 0 (.record t)) (c3ReadyW v)
      = some ⟨[⟨.ready, v, [.record t], []⟩], [], coro0, [.readyEv t v]⟩
  ∧ runOps (n + 5) [.onReady 0 (.record t), .assign 0 v] c3PendW
      = some ⟨[⟨.ready, v, [.record t], []⟩], [], coro0, [.readyEv t v]⟩ :=
  ⟨rfl, rfl⟩

/-! ### C4 -/

/-- C4: for cells `a` (index 0) and `b` (index 1), the composed cell
`a + b` (index 2) resolves to the sum of the operands' values once both
are observed, whether both operands are resolved before the compose is
constructed, the compose is constructed first (either resolution
order), or one operand is resolved before construction; and after
construction alone, `b` is not yet watched (its slot list is empty) —
`b` is only watched after `a` resolves. -/
theorem plus_resolves_to_sum (va vb : Int) (n : Nat) :
    ((runOps (n + 12) [.assign 0 va, .assign 1 vb, .plus 0 1] w2).map
        (fun w => ((getCell w 2).state, (getCell w 2).value)) = some (.ready, va + vb))
  ∧ ((runOps (n + 12) [.plus 0 1, .assign 0 va, .assign 1 vb] w2).map
        (fun w => ((getCell w 2).state, (getCell w 2).value)) = some (.ready, va + vb))
  ∧ ((runOps (n + 12) [.plus 0 1, .assign 1 vb, .assign 0 va] w2).map
        (fun w => ((getCell w 2).state, (getCell w 2).value)) = some (.ready, va + vb))
  ∧ ((runOps (n + 12) [.assign 1 vb, .plus 0 1, .assign 0 va] w2).map
        (fun w => ((getCell w 2).state, (getCell w 2).value)) = some (.ready, va + vb))
  ∧ ((runOps (n + 12) [.plus 0 1] w2).map
        (fun w => (getCell w 1).readyCbs) = some []) :=
  ⟨rfl, rfl, rfl, rfl, rfl⟩

/-! ### C5 -/

/-- C5: `Wait` barrier behaviour.  (a) a job queued while the count is
zero runs immediately and synchronously; (b) a job queued while the
count is nonzero does not run at queueing time; (c) when the count
reaches zero, all queued jobs run exactly once, in queue order (the log
gains one `jobEv` per queued job, in order); (d) with two watched
futures, the job does not run after only the first resolves, runs
exactly once after both resolve regardless of resolution order, and
with zero watched futures it runs immediately. -/
theorem wait_runs_jobs_when_count_reaches_zero (n : Nat) (tags : List Nat)
    (cs : List Impl) (co : CoroSt) (L : List Ev) (js : List Job) :
    (∀ t, runOp (n + 1) (.run 0 (.jrecord t)) ⟨cs, [⟨0, js⟩], co, L⟩
        = some ⟨cs, [⟨0, js ++ [.jrecord t]⟩], co, L ++ [.jobEv t]⟩)
  ∧ (∀ t, runOp (n + 1) (.run 0 (.jrecord t)) ⟨cs, [⟨1, js⟩], co, L⟩
        = some ⟨cs, [⟨1, js ++ [.jrecord t]⟩], co, L⟩)
  ∧ (step ((n + tags.length + 1) + 1) (.oneReady 0) ⟨cs, [⟨1, tags.map .jrecord⟩], co, L⟩
        = some ⟨cs, [⟨0, tags.map .jrecord⟩], co, L ++ tags.map (fun t => Ev.jobEv t)⟩)
  ∧ ((runOps 20 [.watch 0 0, .watch 0 1, .run 0 (.jrecord 1), .run 0 (.jrecord 2),
        .assign 0 10] w2).map World.log = some [])
  ∧ ((runOps 20 [.watch 0 0, .watch 0 1, .run 0 (.jrecord 1), .run 0 (.jrecord 2),
        .assign 0 10, .assign 1 5] w2).map World.log = some [.jobEv 1, .jobEv 2])
  ∧ ((runOps 20 [.watch 0 0, .watch 0 1, .run 0 (.jrecord 1), .run 0 (.jrecord 2),
        .assign 1 5, .assign 0 10] w2).map World.log = some [.jobEv 1, .jobEv 2])
  ∧ ((runOps 20 [.run 0 (.jrecord 9)] w2).map World.log = some [.jobEv 9]) := by
  refine ⟨fun t => rfl, fun t => rfl, ?_, by decide, by decide, by decide, by decide⟩
  rw [show step ((n + tags.length + 1) + 1) (.oneReady 0)
        ⟨cs, [⟨1, tags.map .jrecord⟩], co, L⟩
      = step (n + tags.length + 1) (.jobList (tags.map .jrecord ++ []))
          ⟨cs, [⟨0, tags.map .jrecord⟩], co, L⟩
    from by rw [List.append_nil]; rfl]
  rw [step_jobList_map_jrecord]
  rw [show ∀ (m : Nat) (w : World), step (m + 1) (.jobList []) w = some w
    from fun m w => rfl]

/-! ### C6 -/

/-- C6 counterexample: a barrier watching one future whose first
terminal transition is to Failed never has its count decremented —
after `watch` and `emit_fail` the counter is still `1` even though the
watched cell is terminal (`failed`).  This refutes the claim that the
decrement happens on the first terminal transition whether it is to
Ready or to Failed. -/
theorem watched_fail_does_not_decrement :
    (runOps 10 [.watch 0 0, .emitFail 0] w2).map
        (fun w => ((getBarrier w 0).counter, (getCell w 0).state))
      = some (1, .failed) := by decide

/-- C6 (amended): `Wait::operator()` registers only a ready-callback on
the watched future, so the barrier's count is decremented exactly once
when the watched future transitions to Ready; a transition to Failed
never decrements it (the barrier then waits forever). -/
theorem watch_decrements_only_on_ready (v : Int) (n : Nat) :
    ((runOps (n + 6) [.watch 0 0, .assign 0 v] w2).map
        (fun w => ((getBarrier w 0).counter, (getCell w 0).state))
      = some (0, .ready))
  ∧ ((runOps (n + 6) [.watch 0 0, .emitFail 0] w2).map
        (fun w => ((getBarrier w 0).counter, (getCell w 0).state))
      = some (1, .failed)) :=
  ⟨rfl, rfl⟩

/-! ### C7 -/

/-- C7 counterexample: `emit_fail` on an already-Ready cell is not
rejected — no assertion fires (the result is `some`, not the
contract-violation `none`); the state is overwritten from Ready to
Failed and the fail-callbacks run.  This refutes the claim that `fail()`
is valid only when the state is Pending. -/
theorem emit_fail_on_ready_cell_not_rejected :
    runOp 10 (.emitFail 0) (c7World .ready [1, 2])
      = some ⟨[⟨.failed, 0, [.record 9], [.frecord 1, .frecord 2]⟩], [], coro0,
              [.failEv 1, .failEv 2]⟩ := by decide

/-- C7 (amended): `fail()` (`emit_fail`) sets the state to Failed and
invokes every registered fail-callback in registration order,
delivering the failure to fail-callbacks and never to ready-callbacks
(the registered ready-callback `record 9` produces no event); but it
performs no Pending check — it behaves this way from *any* initial
state `s`. -/
theorem emit_fail_fires_fail_callbacks_in_order (n : Nat) (s : LState)
    (ftags : List Nat) :
    runOp (n + ftags.length + 3) (.emitFail 0) (c7World s ftags)
      = some ⟨[⟨.failed, 0, [.record 9], ftags.map .frecord⟩], [], coro0,
              ftags.map (fun t => Ev.failEv t)⟩ := by
  rw [show n + ftags.length + 3 = ((n + 1) + ftags.length + 1) + 1 from by omega]
  rw [show runOp (((n + 1) + ftags.length + 1) + 1) (.emitFail 0) (c7World s ftags)
        = step ((n + 1) + ftags.length + 1) (.fireF (ftags.map .frecord ++ []))
            ⟨[⟨.failed, 0, [.record 9], ftags.map .frecord⟩], [], coro0, []⟩
      from by rw [List.append_nil]; rfl]
  rw [step_fireF_map_frecord]
  rw [show ∀ (m : Nat) (w : World), step (m + 1) (.fireF []) w = some w
    from fun m w => rfl]
  simp

/-! ### C8 -/

/-- C8: `get()` returns the stored value when the state is Ready, and
is rejected as a contract violation (the `assert(state_ == LAZY_READY)`
fails, modelled as `none`) whenever the cell is still Pending or has
Failed. -/
theorem get_requires_ready (w : World) (i : Nat) :
    ((getCell w i).state = .ready → Lazy.get w i = some (getCell w i).value)
  ∧ ((getCell w i).state ≠ .ready → Lazy.get w i = none) := by
  constructor
  · intro h; simp [Lazy.get, h]
  · intro h; simp [Lazy.get, h]

/-- Witness for C8 at concrete cells: a Ready cell yields its value, a
Pending cell and a Failed cell are rejected. -/
theorem get_requires_ready_witness :
    Lazy.get cexW 0 = some 7
  ∧ Lazy.get w2 0 = none
  ∧ Lazy.get (c7World .failed []) 0 = none :=
  ⟨((get_requires_ready cexW 0).1 (by decide)).trans (by decide),
   (get_requires_ready w2 0).2 (by decide),
   (get_requires_ready (c7World .failed []) 0).2 (by decide)⟩

/-! ### C9 -/

/-- C9: the routine `x = awaitValue(A); y = awaitValue(B);
result = x + y` run under the cooperative scheduler.  After the first
handoff the routine has registered `resume` on `A` and suspended
(first suspension; not finished).  The driver then resolves `A` to 10:
the ready-callback resumes the routine, which reads `x = 10`, registers
`resume` on `B`, and suspends again.  The driver resolves `B` to 5: the
routine reads `y = 5`, observes `result = 15`, and is reported
finished. -/
theorem coroutine_sequential_awaits_sum :
    ((runOps 20 [.startCoro] w2).map
        (fun w => (w.coro.pc, w.coro.finished, (getCell w 0).readyCbs))
      = some (.awaitingA, false, [.resume]))
  ∧ ((runOps 20 [.startCoro, .assign 0 10] w2).map
        (fun w => (w.coro.pc, w.coro.x, w.coro.finished, (getCell w 1).readyCbs))
      = some (.awaitingB, 10, false, [.resume]))
  ∧ ((runOps 20 [.startCoro, .assign 0 10, .assign 1 5] w2).map
        (fun w => (w.coro.result, w.coro.finished, w.coro.pc))
      = some (15, true, .done)) := by
  refine ⟨by decide, by decide, by decide⟩

/-! ### C10 -/

/-- C10: a job queued on a barrier whose count is zero runs immediately
but remains in the barrier's job list; when the count later returns to
zero (after a further `watch` and the watched future's resolution) the
whole job list runs again, so the one queued job has run twice. -/
theorem queued_job_runs_again_when_count_returns_to_zero :
    ((runOps 20 [.run 0 (.jrecord 7)] w2).map
        (fun w => (w.log, (getBarrier w 0).jobs))
      = some ([.jobEv 7], [.jrecord 7]))
  ∧ ((runOps 20 [.run 0 (.jrecord 7), .watch 0 0, .assign 0 1] w2).map
        (fun w => (w.log, (getBarrier w 0).jobs))
      = some ([.jobEv 7, .jobEv 7], [.jrecord 7])) := by
  refine ⟨by decide, by decide⟩
